import Mathlib

/-!
# hairev::libs::Large_Numbers

A shallow embedding of `large_numbers/cpp/src/lib_large_numbers.hpp`.

* `int_revvec_t` (`std::vector<std::uint32_t>`, least significant digit first) is a
  `List Nat`; every store into a vector cell is reduced modulo `2 ^ 32`.
* `int32_t` temporaries are `Int`.  Signed overflow is undefined in C++; it cannot occur when
  the cells hold decimal digits, which is the only situation the theorems below talk about.
* A `throw std::invalid_argument(..)` is `Except.error (Fault.invalid_argument ..)`.
* `std::vector::back()` on an empty vector is undefined behaviour in C++; the embedding reports
  it as `Except.error Fault.undefined_behaviour` instead of inventing a result.
* Loop counters are `int`; vectors of `2 ^ 31` or more cells are outside the model.
-/

namespace LargeNumbers

/-- The two ways a call can fail to return a value. -/
inductive Fault where
  | invalid_argument (msg : String)
  | undefined_behaviour
deriving DecidableEq, Repr

/-- The class `Large_Numbers`: the private fields `value` and `is_positive`. -/
structure Large_Numbers where
  is_positive : Bool
  value : List Nat
deriving DecidableEq, Repr

/-- The member constant `vec_zero`. -/
def vec_zero : List Nat := [0]

/-- The member constant `vec_one`. -/
def vec_one : List Nat := [1]

/-- Conversion `(int32_t)x` of a `uint32_t` cell. -/
def toInt32 (x : Nat) : Int :=
  if x % 2 ^ 32 < 2 ^ 31 then ((x % 2 ^ 32 : Nat) : Int) else ((x % 2 ^ 32 : Nat) : Int) - 2 ^ 32

/-- Conversion of an `int32_t` to the `uint32_t` cell it is stored in. -/
def toUInt32 (z : Int) : Nat := (z % 2 ^ 32).toNat

/-! ## Comparison of digit vectors -/

/-- The operator `<` of `std::vector`: `std::lexicographical_compare` from index 0. -/
def vec_lt : List Nat → List Nat → Bool
  | [], [] => false
  | [], _ :: _ => true
  | _ :: _, [] => false
  | x :: xs, y :: ys => if x < y then true else if y < x then false else vec_lt xs ys

/-- The `for` loop of `op_equal`, run on two vectors of the same size. -/
def equal_scan : List Nat → List Nat → Bool
  | x :: xs, y :: ys => if x ≠ y then false else equal_scan xs ys
  | _, _ => true

/-- The function `op_equal`. -/
def op_equal (lhs rhs : List Nat) : Bool :=
  if lhs ≠ rhs then false
  else if lhs.length ≠ rhs.length then false
  else equal_scan lhs rhs

/-- The `for` loop of `op_less_than`, run on two vectors of the same size: the first index
(from 0) at which the cells differ decides. -/
def less_scan : List Nat → List Nat → Bool
  | x :: xs, y :: ys => if x ≠ y then decide (x < y) else less_scan xs ys
  | _, _ => false

/-- The function `op_less_than`. -/
def op_less_than (lhs rhs : List Nat) : Bool :=
  if vec_lt lhs rhs then true
  else if lhs.length ≠ rhs.length then decide (lhs.length < rhs.length)
  else less_scan lhs rhs

/-! ## Trimming -/

/-- The loop `while (v.back() == 0) v.pop_back();` on the reversed vector (most significant
cell first).  Reaching the empty vector means `back()` is called on an empty vector. -/
def pop_zeros_rev : List Nat → Except Fault (List Nat)
  | [] => .error .undefined_behaviour
  | x :: xs => if x = 0 then pop_zeros_rev xs else .ok (x :: xs)

/-- The loop `while (v.back() == 0) v.pop_back();`. -/
def pop_zeros (v : List Nat) : Except Fault (List Nat) :=
  (pop_zeros_rev v.reverse).map List.reverse

/-- The function `trim`. -/
def trim (digits : List Nat) : Except Fault (List Nat) :=
  pop_zeros digits

/-! ## Unsigned subtraction -/

/-- The `for` loop of `op_subtract` from the current index on: the remaining cells of
`left_clone`, the cells of `right_clone` from the same index, and `borrow`.  Returns the
rewritten cells and the final `borrow`. -/
def sub_loop : List Nat → List Nat → Int → List Nat × Int
  | [], _, borrow => ([], borrow)
  | x :: xs, r, borrow =>
    let right_digit : Int := match r with
      | [] => 0
      | y :: _ => toInt32 y
    let left_digit : Int := toInt32 x - borrow
    let step : Int × Int :=
      if left_digit < 0 ∨ left_digit < right_digit then (left_digit + 10, 1) else (left_digit, 0)
    let rest := sub_loop xs r.tail step.2
    (toUInt32 (step.1 - right_digit) :: rest.1, rest.2)

/-- The function `op_subtract`. -/
def op_subtract (lhs rhs : List Nat) : Except Fault (List Nat) :=
  if op_equal lhs rhs then .ok vec_zero
  else if rhs.length = 0 ∨ (rhs.length = 1 ∧ rhs.head? = some 0) then .ok lhs
  else
    let out := sub_loop lhs rhs 0
    if out.2 = 1 then .error (.invalid_argument "Borrow is still 1 after subtraction")
    else pop_zeros out.1

/-! ## Unsigned addition -/

/-- The `for` loop of `op_add` from the current index on: the remaining cells of `left_clone`
(a carry already added into the next cell sits in the head) and the cells of `right_clone`
from the same index.  The bound `left_clone.size()` is read again at every iteration, so a
cell appended by `push_back` is visited too. -/
def add_loop : List Nat → List Nat → List Nat
  | [], _ => []
  | x :: xs, r =>
    let x1 : Nat := match r with
      | [] => x
      | y :: _ => (x + y) % 2 ^ 32
    let carry_over := x1 / 10
    if carry_over > 0 then
      match xs with
      | [] => (x1 % 10) :: add_loop [carry_over] r.tail
      | z :: zs => (x1 % 10) :: add_loop (((z + carry_over) % 2 ^ 32) :: zs) r.tail
    else x1 :: add_loop xs r.tail
termination_by l r => (l.length + r.length, l.headD 0)
decreasing_by
  · simp_wf
    rename_i h
    cases r with
    | nil =>
      have hx : x / 10 > 0 := h
      exact Prod.Lex.right _ (by simp only []; omega)
    | cons y ys => exact Prod.Lex.left _ _ (by simp)
  · simp_wf
    exact Prod.Lex.left _ _ (by omega)
  · simp_wf
    exact Prod.Lex.left _ _ (by omega)


/-- The function `op_add`. -/
def op_add (lhs rhs : List Nat) : Except Fault (List Nat) :=
  let left_clone := if lhs.length > rhs.length then lhs else rhs
  let right_clone := if lhs.length > rhs.length then rhs else lhs
  if right_clone.length = 0 ∨ (right_clone.length = 1 ∧ right_clone.head? = some 0) then
    .ok left_clone
  else pop_zeros (add_loop left_clone right_clone)

/-! ## Signed dispatch -/

/-- The function `op_less_than_tup`. -/
def op_less_than_tup (lhs rhs : Bool × List Nat) : Bool :=
  op_less_than lhs.2 rhs.2

/-- The function `op_add_tuple`; a tuple is `(is_positive, digits)`. -/
def op_add_tuple (left right : Bool × List Nat) : Except Fault (Bool × List Nat) :=
  if left.1 && right.1 then do
    let result ← op_add left.2 right.2
    pure (true, result)
  else if !left.1 && right.1 then do
    let result ← op_subtract right.2 left.2
    pure (op_less_than right.2 left.2, result)
  else if left.1 && !right.1 then do
    let result ← op_subtract left.2 right.2
    pure (op_less_than left.2 right.2, result)
  else if !left.1 && !right.1 then do
    let result ← op_subtract right.2 left.2
    pure (op_less_than right.2 left.2, result)
  else .error (.invalid_argument "Unknown state")

/-- The function `op_subtract_tuple`; a tuple is `(is_positive, digits)`. -/
def op_subtract_tuple (left right : Bool × List Nat) : Except Fault (Bool × List Nat) :=
  let left_clone := left.2
  let right_clone := right.2
  let left_is_positive := left.1
  let right_is_positive := right.1
  let result_is_positive := if op_less_than_tup left right then false else true
  if left_is_positive && right_is_positive then
    if op_less_than left_clone right_clone then do
      let result ← op_subtract right_clone left_clone
      pure (false, result)
    else do
      let result ← op_subtract left_clone right_clone
      pure (true, result)
  else if left_is_positive != right_is_positive then do
    let result ← op_add left_clone right_clone
    pure (left_is_positive, result)
  else if !left_is_positive && right_is_positive then do
    let result ← op_add left_clone right_clone
    pure (false, result)
  else if !left_is_positive && !right_is_positive then
    if op_less_than left_clone right_clone then do
      let result ← op_subtract right_clone left_clone
      pure (true, result)
    else do
      let result ← op_subtract left_clone right_clone
      pure (false, result)
  else pure (result_is_positive, [])

/-! ## The public members -/

/-- The static member `Zero()`. -/
def Zero : Large_Numbers := ⟨true, [0]⟩

/-- The member `Is_Zero()`. -/
def Is_Zero (x : Large_Numbers) : Bool := op_equal x.value vec_zero

/-- The member `Is_Positive()`. -/
def Is_Positive (x : Large_Numbers) : Bool := x.is_positive || Is_Zero x

/-- The member `operator+`. -/
def operator_plus (x rhs : Large_Numbers) : Except Fault Large_Numbers := do
  let result ← op_add_tuple (x.is_positive, x.value) (rhs.is_positive, rhs.value)
  pure ⟨result.1, result.2⟩

/-- The binary member `operator-`. -/
def operator_minus (x rhs : Large_Numbers) : Except Fault Large_Numbers := do
  let result ← op_subtract_tuple (x.is_positive, x.value) (rhs.is_positive, rhs.value)
  pure ⟨result.1, result.2⟩

/-- The member `operator==`. -/
def operator_eq (x rhs : Large_Numbers) : Bool :=
  (x.is_positive == rhs.is_positive) && op_equal x.value rhs.value

/-- The member `operator<`. -/
def operator_lt (x rhs : Large_Numbers) : Bool :=
  if x.is_positive && !rhs.is_positive then false
  else if !x.is_positive && rhs.is_positive then true
  else op_less_than x.value rhs.value

/-- The member `operator>`. -/
def operator_gt (x rhs : Large_Numbers) : Bool :=
  !(operator_lt x rhs) && !(operator_eq x rhs)

/-- The function `op_multiply_tuple`: it logs its operands and throws. -/
def op_multiply_tuple (_left _right : Bool × List Nat) : Except Fault (Bool × List Nat) :=
  .error (.invalid_argument "Not implemented yet")

/-- The function `op_divide_tuple`: it logs its operands and throws. -/
def op_divide_tuple (_left _right : Bool × List Nat) : Except Fault (Bool × List Nat) :=
  .error (.invalid_argument "Not implemented yet")

/-- The function `op_modulo_tuple`: it logs its operands and throws. -/
def op_modulo_tuple (_left _right : Bool × List Nat) : Except Fault (Bool × List Nat) :=
  .error (.invalid_argument "Not implemented yet")

/-- The member `operator*`. -/
def operator_mul (x rhs : Large_Numbers) : Except Fault Large_Numbers := do
  let result ← op_multiply_tuple (x.is_positive, x.value) (rhs.is_positive, rhs.value)
  pure ⟨result.1, result.2⟩

/-- The member `operator/`. -/
def operator_div (x rhs : Large_Numbers) : Except Fault Large_Numbers := do
  let result ← op_divide_tuple (x.is_positive, x.value) (rhs.is_positive, rhs.value)
  pure ⟨result.1, result.2⟩

/-- The member `operator%`. -/
def operator_mod (x rhs : Large_Numbers) : Except Fault Large_Numbers := do
  let result ← op_modulo_tuple (x.is_positive, x.value) (rhs.is_positive, rhs.value)
  pure ⟨result.1, result.2⟩

/-- The unary member `operator-()`: the first component is the object after the call, the
second the value returned (`return *this;` copies the object after the assignment). -/
def operator_neg (x : Large_Numbers) : Large_Numbers × Large_Numbers :=
  let this : Large_Numbers := { x with is_positive := !x.is_positive }
  (this, this)

/-! ## Rendering -/

/-- Conversion of an `int` to `size_t`, as in a comparison of `size()` with an `int`. -/
def toSize (z : Int) : Nat := (z % 2 ^ 64).toNat

/-- The `for` loop of `to_string_with_padding`: `std::to_string` of every cell, appended in
storage order. -/
def digits_to_string : List Nat → List Char
  | [] => []
  | digit :: rest => Nat.toDigits 10 digit ++ digits_to_string rest

/-- The loop `while (str.size() < width) str = padding_char + str;`. -/
def pad_loop (padding_char : Char) (width : Nat) (str : List Char) : List Char :=
  if str.length < width then pad_loop padding_char width (padding_char :: str) else str
termination_by width - str.length
decreasing_by
  simp_wf
  omega

/-- The member `to_string_with_padding(int width, char padding_char)`. -/
def to_string_with_padding (x : Large_Numbers) (width : Int) (padding_char : Char) :
    List Char :=
  let str : List Char := if !x.is_positive then ['-'] else []
  let str := str ++ digits_to_string x.value
  if width ≥ 2 ∨ x.value.length < toSize (width - 1) then
    let str := if !x.is_positive then str.tail else str
    let str := pad_loop padding_char (toSize width) str
    if !x.is_positive then '-' :: str else str
  else str

/-- The member `to_string()`. -/
def to_string (x : Large_Numbers) : List Char := to_string_with_padding x 0 '0'

/-- The member `Get(int width, char padding_char)`. -/
def Get (x : Large_Numbers) (width : Int) (padding_char : Char) : List Char :=
  to_string_with_padding x width padding_char

/-! ## Construction -/

/-- Conversion of an integer to `int64_t` (two's complement). -/
def toInt64 (z : Int) : Int := (z + 2 ^ 63) % 2 ^ 64 - 2 ^ 63

/-- The `while (current_digit > 0)` loop of `i64_to_digits`: the cells it appends. -/
def i64_digits_loop (current_digit : Int) : List Nat :=
  if current_digit > 0 then
    toUInt32 (current_digit % 10) :: i64_digits_loop (current_digit / 10)
  else []
termination_by current_digit.toNat
decreasing_by
  simp_wf
  omega

/-- The function `i64_to_digits`; the argument is an `int64_t`.  For the minimum value
`-2 ^ 63` the negation `-num64` is a signed overflow. -/
def i64_to_digits (num64 : Int) : Except Fault (Bool × List Nat) :=
  let is_positive := decide (num64 ≥ 0)
  if num64 = -2 ^ 63 then .error .undefined_behaviour
  else
    let current_digit := if is_positive then num64 else -num64
    .ok (is_positive, i64_digits_loop current_digit)

/-- The constructor `Large_Numbers(const int64_t &v)`. -/
def Large_Numbers_int64 (v : Int) : Except Fault Large_Numbers := do
  let tup ← i64_to_digits v
  pure ⟨tup.1, tup.2⟩

/-- The constructor `Large_Numbers(const uint64_t &v)`: `i64_to_digits` takes an `int64_t`,
so the argument is converted on the call. -/
def Large_Numbers_uint64 (v : Nat) : Except Fault Large_Numbers := do
  let tup ← i64_to_digits (toInt64 (v : Int))
  pure ⟨tup.1, tup.2⟩

/-- The last loop of `from_string`: every character must be a decimal digit and is appended
as `c - '0'`. -/
def from_string_digits : List Char → Except Fault (List Nat)
  | [] => .ok []
  | c :: cs =>
    if !c.isDigit then .error (.invalid_argument "Invalid character in string")
    else do
      let rest ← from_string_digits cs
      pure ((c.toNat - '0'.toNat) :: rest)

/-- The member `from_string`; a `std::string` is the list of its characters.  Reading
`str_v_copied[0]` of an empty string yields the terminating null character, so the loop that
pops leading zeros stops on the empty string. -/
def from_string (str : List Char) : Except Fault Large_Numbers :=
  if str.length = 0 then .error (.invalid_argument "Empty string")
  else
    let is_positive := !(str.head? == some '-')
    let str_v_copied := if str.head? == some '-' then str.tail else str
    let str_v_copied := str_v_copied.takeWhile (fun c => c != '.')
    let str_v_copied := str_v_copied.filter (fun c => c != ',')
    let str_v_copied := str_v_copied.filter (fun c => c != '_')
    let str_v_copied := str_v_copied.filter (fun c => c != '\'')
    let str_v_copied := str_v_copied.filter (fun c => c != ' ')
    let str_v_copied := str_v_copied.dropWhile (fun c => c == '0')
    let str_v_copied := str_v_copied.reverse
    do
      let value ← from_string_digits str_v_copied
      pure ⟨is_positive, value⟩

/-- The constructor `Large_Numbers(const std::string &str_v, bool is_positive)`: the member
initialiser stores the declared sign, the body overwrites both fields with the parsed ones and
then compares the stored sign with the parsed one. -/
def Large_Numbers_string (str_v : List Char) (is_positive : Bool) :
    Except Fault Large_Numbers := do
  let this : Large_Numbers := ⟨is_positive, []⟩
  let fs ← from_string str_v
  let this : Large_Numbers := { this with value := fs.value }
  let this : Large_Numbers := { this with is_positive := fs.is_positive }
  if this.is_positive != fs.is_positive then .error (.invalid_argument "Sign mismatch")
  else pure this

/-! ## Fibonacci -/

/-- The `for` loop of `fibonacci_large_iter` with the given number of iterations left; the
arguments are `n_minus_1`, `n_minus_2` and `fib_n`. -/
def fib_loop : Nat → List Nat → List Nat → List Nat → Except Fault (List Nat)
  | 0, _, _, fib_n => .ok fib_n
  | k + 1, n_minus_1, n_minus_2, _ => do
    let fib_n ← op_add n_minus_1 n_minus_2
    fib_loop k fib_n n_minus_1 fib_n

/-- The member `fibonacci_large_iter(uint64_t n)`: the vector it returns (it stores the same
vector in `this->value`).  The counter `i` of `for (auto i = 2; i <= n; i++)` is an `int`:
for `n < 2 ^ 31 - 1` the body runs `n - 1` times and the last increment leaves the loop; for
`n ≥ 2 ^ 31 - 1` the counter reaches `INT_MAX` with `i <= n` still true and `i++` is a signed
overflow. -/
def fibonacci_large_iter (n : Nat) : Except Fault (List Nat) :=
  if n = 0 then .ok [0]
  else if n = 1 then .ok [1]
  else if n < 2 ^ 31 - 1 then fib_loop (n - 1) [1] [0] []
  else .error .undefined_behaviour

/-! ## Reading a digit vector -/

/-- The decimal value of a digit vector stored least significant digit first. -/
def value : List Nat → Nat
  | [] => 0
  | d :: ds => d + 10 * value ds

/-- A canonical magnitude: non-empty, every digit in `0..9`, and the last entry nonzero unless
the sequence is `[0]`. -/
def Canonical (ds : List Nat) : Prop :=
  ds ≠ [] ∧ (∀ d ∈ ds, d ≤ 9) ∧ (ds = [0] ∨ ds.getLast? ≠ some 0)

instance : DecidablePred Canonical := fun ds => by
  unfold Canonical
  infer_instance

/-- The text the claim about `from_string` describes: one leading `'-'` removed, the string
truncated at the first `'.'`, and every comma, underscore, apostrophe and space deleted. -/
def claim_stripped (str : List Char) : List Char :=
  let s := if str.head? = some '-' then str.tail else str
  let s := s.takeWhile (fun c => c != '.')
  s.filter (fun c => c != ',' && c != '_' && c != '\'' && c != ' ')

/-- The order the claim about `op_less_than` describes: `a` is lexicographically smaller than
`b` when compared from index 0.  The two sequences agree on their first `i` entries, and then
either `a` ends while `b` goes on (a proper prefix), or both have an entry at index `i` and
the entry of `a` is the smaller one. -/
def lex_smaller (a b : List Nat) : Prop :=
  ∃ i, a.take i = b.take i ∧
    ((a.length = i ∧ i < b.length) ∨ ∃ x y, a[i]? = some x ∧ b[i]? = some y ∧ x < y)

/-- The Fibonacci numbers: `F(0) = 0`, `F(1) = 1`, `F(i) = F(i-1) + F(i-2)`. -/
def fibSpec : Nat → Nat
  | 0 => 0
  | 1 => 1
  | n + 2 => fibSpec (n + 1) + fibSpec n

/-! ## Facts about `value` and canonical magnitudes -/

theorem value_append (a b : List Nat) :
    value (a ++ b) = value a + 10 ^ a.length * value b := by
  induction a with
  | nil => simp [value]
  | cons x xs ih =>
    rw [List.cons_append]
    simp only [value, ih, List.length_cons, pow_succ]
    ring

theorem value_replicate_zero (k : Nat) : value (List.replicate k 0) = 0 := by
  induction k with
  | zero => rfl
  | succ k ih => simp [List.replicate, value, ih]

theorem value_lt_pow (l : List Nat) (h : ∀ d ∈ l, d ≤ 9) : value l < 10 ^ l.length := by
  induction l with
  | nil => simp [value]
  | cons x xs ih =>
    have hx := h x (by simp)
    have hxs := ih (fun d hd => h d (by simp [hd]))
    simp only [value, List.length_cons, pow_succ]
    omega

theorem exists_ne_zero_of_value_pos (l : List Nat) (h : 0 < value l) : ∃ d ∈ l, d ≠ 0 := by
  induction l with
  | nil => simp [value] at h
  | cons x xs ih =>
    by_cases hx : x = 0
    · subst hx
      have hxs : 0 < value xs := by
        simp only [value] at h
        omega
      obtain ⟨d, hd, hne⟩ := ih hxs
      exact ⟨d, by simp [hd], hne⟩
    · exact ⟨x, by simp, hx⟩

theorem eq_of_value_eq : ∀ (a b : List Nat), a.length = b.length →
    (∀ d ∈ a, d ≤ 9) → (∀ d ∈ b, d ≤ 9) → value a = value b → a = b
  | [], [], _, _, _, _ => rfl
  | [], _ :: _, h, _, _, _ => by simp at h
  | _ :: _, [], h, _, _, _ => by simp at h
  | x :: xs, y :: ys, h, ha, hb, hv => by
    have hx := ha x (by simp)
    have hy := hb y (by simp)
    simp only [value] at hv
    have hxy : x = y := by omega
    have hrest : value xs = value ys := by omega
    have hlen : xs.length = ys.length := by simpa using h
    rw [hxy, eq_of_value_eq xs ys hlen (fun d hd => ha d (by simp [hd]))
      (fun d hd => hb d (by simp [hd])) hrest]

theorem canonical_pow_le (l : List Nat) (hc : Canonical l) (hz : l ≠ [0]) :
    10 ^ (l.length - 1) ≤ value l := by
  obtain ⟨hne, _, hlast⟩ := hc
  rcases hlast with h0 | hlast
  · exact absurd h0 hz
  · rcases List.eq_nil_or_concat l with hnil | ⟨init, last, hl⟩
    · exact absurd hnil hne
    · rw [List.concat_eq_append] at hl
      subst hl
      rw [List.getLast?_concat] at hlast
      have hpos : 1 ≤ last := by
        rcases Nat.eq_zero_or_pos last with h | h
        · exact absurd (by rw [h]) hlast
        · exact h
      rw [value_append]
      simp only [List.length_append, List.length_singleton, Nat.add_sub_cancel, value]
      calc 10 ^ init.length = 10 ^ init.length * 1 := by ring
        _ ≤ 10 ^ init.length * (last + 10 * 0) := Nat.mul_le_mul_left _ (by omega)
        _ ≤ value init + 10 ^ init.length * (last + 10 * 0) := Nat.le_add_left _ _

theorem canonical_unique (a b : List Nat) (ha : Canonical a) (hb : Canonical b)
    (hv : value a = value b) : a = b := by
  by_cases ha0 : a = [0]
  · subst ha0
    by_cases hb0 : b = [0]
    · exact hb0.symm
    · have := canonical_pow_le b hb hb0
      have hp : 0 < 10 ^ (b.length - 1) := Nat.pow_pos (by decide)
      simp only [value] at hv
      omega
  by_cases hb0 : b = [0]
  · subst hb0
    have := canonical_pow_le a ha ha0
    have hp : 0 < 10 ^ (a.length - 1) := Nat.pow_pos (by decide)
    simp only [value] at hv
    omega
  have hla := canonical_pow_le a ha ha0
  have hlb := canonical_pow_le b hb hb0
  have hua := value_lt_pow a ha.2.1
  have hub := value_lt_pow b hb.2.1
  have hane : a.length ≠ 0 := fun h => ha.1 (List.length_eq_zero.mp h)
  have hbne : b.length ≠ 0 := fun h => hb.1 (List.length_eq_zero.mp h)
  have hlen : a.length = b.length := by
    rcases Nat.lt_trichotomy a.length b.length with h | h | h
    · have : 10 ^ a.length ≤ 10 ^ (b.length - 1) :=
        Nat.pow_le_pow_right (by decide) (by omega)
      omega
    · exact h
    · have : 10 ^ b.length ≤ 10 ^ (a.length - 1) :=
        Nat.pow_le_pow_right (by decide) (by omega)
      omega
  exact eq_of_value_eq a b hlen ha.2.1 hb.2.1 hv

/-! ## Facts about the trimming loop -/

theorem pop_zeros_rev_spec (l : List Nat) (h : ∃ d ∈ l, d ≠ 0) :
    ∃ k l', pop_zeros_rev l = .ok l' ∧ l = List.replicate k 0 ++ l' ∧
      l'.head? ≠ some 0 ∧ l' ≠ [] := by
  induction l with
  | nil => simp at h
  | cons x xs ih =>
    by_cases hx : x = 0
    · subst hx
      obtain ⟨d, hd, hne⟩ := h
      have hd' : d ∈ xs := by
        rcases List.mem_cons.mp hd with h0 | h0
        · exact absurd h0 hne
        · exact h0
      obtain ⟨k, l', hok, hl, hhead, hnil⟩ := ih ⟨d, hd', hne⟩
      refine ⟨k + 1, l', ?_, ?_, hhead, hnil⟩
      · simpa [pop_zeros_rev] using hok
      · simp [List.replicate, hl]
    · refine ⟨0, x :: xs, ?_, by simp, ?_, by simp⟩
      · simp [pop_zeros_rev, hx]
      · simpa using hx

theorem pop_zeros_spec (v : List Nat) (hd : ∀ d ∈ v, d ≤ 9) (hv : 0 < value v) :
    ∃ r, pop_zeros v = .ok r ∧ Canonical r ∧ value r = value v := by
  obtain ⟨d, hmem, hne⟩ := exists_ne_zero_of_value_pos v hv
  obtain ⟨k, l', hok, hl, hhead, hnil⟩ :=
    pop_zeros_rev_spec v.reverse ⟨d, by simpa using hmem, hne⟩
  have hv' : v = l'.reverse ++ List.replicate k 0 := by
    have := congrArg List.reverse hl
    simpa using this
  refine ⟨l'.reverse, ?_, ⟨?_, ?_, ?_⟩, ?_⟩
  · simp [pop_zeros, hok, Except.map]
  · simpa using hnil
  · intro e he
    exact hd e (by rw [hv']; simp [List.mem_reverse.mp he] )
  · right
    simpa using hhead
  · rw [hv', value_append, value_replicate_zero]
    simp

/-! ## Facts about the addition loop -/

theorem add_loop_spec : ∀ (xs : List Nat) (x : Nat) (r : List Nat),
    x ≤ 10 → (∀ d ∈ xs, d ≤ 9) → (∀ d ∈ r, d ≤ 9) → r.length ≤ xs.length + 1 →
    value (add_loop (x :: xs) r) = value (x :: xs) + value r ∧
      ∀ d ∈ add_loop (x :: xs) r, d ≤ 9
  | [], x, [], hx, _, _, _ => by
    rw [add_loop]
    by_cases hc : x / 10 > 0
    · have h1 : x / 10 = 1 := by omega
      rw [if_pos hc, h1, List.tail_nil, add_loop]
      simp only [add_loop, value]
      constructor
      · simp; omega
      · intro d hd
        simp at hd
        omega
    · rw [if_neg hc, List.tail_nil, add_loop]
      simp only [value]
      constructor
      · trivial
      · intro d hd
        simp at hd
        omega
  | [], x, [y], hx, _, hr, _ => by
    have hy := hr y (by simp)
    have hm : (x + y) % 2 ^ 32 = x + y := Nat.mod_eq_of_lt (by norm_num; omega)
    rw [add_loop, hm]
    by_cases hc : (x + y) / 10 > 0
    · have h1 : (x + y) / 10 = 1 := by omega
      rw [if_pos hc, h1, List.tail_cons, add_loop]
      simp only [add_loop, value]
      constructor
      · simp; omega
      · intro d hd
        simp at hd
        omega
    · rw [if_neg hc, List.tail_cons, add_loop]
      simp only [value]
      constructor
      · trivial
      · intro d hd
        simp at hd
        omega
  | [], _, _ :: _ :: _, _, _, _, hlen => by simp at hlen
  | z :: zs, x, [], hx, hxs, hr, _ => by
    have hz := hxs z (by simp)
    have hzs : ∀ d ∈ zs, d ≤ 9 := fun d hd => hxs d (by simp [hd])
    rw [add_loop]
    by_cases hc : x / 10 > 0
    · have h1 : x / 10 = 1 := by omega
      have hm : (z + 1) % 2 ^ 32 = z + 1 := Nat.mod_eq_of_lt (by norm_num; omega)
      rw [if_pos hc, h1, hm, List.tail_nil]
      obtain ⟨hv, hd⟩ := add_loop_spec zs (z + 1) [] (by omega) hzs hr (by simp)
      constructor
      · simp only [value] at hv ⊢
        rw [hv]
        omega
      · intro d hmem
        rcases List.mem_cons.mp hmem with h | h
        · omega
        · exact hd d h
    · rw [if_neg hc, List.tail_nil]
      obtain ⟨hv, hd⟩ := add_loop_spec zs z [] (by omega) hzs hr (by simp)
      constructor
      · simp only [value] at hv ⊢
        rw [hv]
        omega
      · intro d hmem
        rcases List.mem_cons.mp hmem with h | h
        · omega
        · exact hd d h
  | z :: zs, x, y :: ys, hx, hxs, hr, hlen => by
    have hz := hxs z (by simp)
    have hzs : ∀ d ∈ zs, d ≤ 9 := fun d hd => hxs d (by simp [hd])
    have hy := hr y (by simp)
    have hys : ∀ d ∈ ys, d ≤ 9 := fun d hd => hr d (by simp [hd])
    have hlen' : ys.length ≤ zs.length + 1 := by simpa using hlen
    have hm : (x + y) % 2 ^ 32 = x + y := Nat.mod_eq_of_lt (by norm_num; omega)
    rw [add_loop, hm]
    by_cases hc : (x + y) / 10 > 0
    · have h1 : (x + y) / 10 = 1 := by omega
      have hm1 : (z + 1) % 2 ^ 32 = z + 1 := Nat.mod_eq_of_lt (by norm_num; omega)
      rw [if_pos hc, h1, hm1, List.tail_cons]
      obtain ⟨hv, hd⟩ := add_loop_spec zs (z + 1) ys (by omega) hzs hys hlen'
      constructor
      · simp only [value] at hv ⊢
        rw [hv]
        omega
      · intro d hmem
        rcases List.mem_cons.mp hmem with h | h
        · omega
        · exact hd d h
    · rw [if_neg hc, List.tail_cons]
      obtain ⟨hv, hd⟩ := add_loop_spec zs z ys (by omega) hzs hys hlen'
      constructor
      · simp only [value] at hv ⊢
        rw [hv]
        omega
      · intro d hmem
        rcases List.mem_cons.mp hmem with h | h
        · omega
        · exact hd d h

theorem canonical_value_pos (l : List Nat) (hc : Canonical l) (hz : l ≠ [0]) : 0 < value l :=
  Nat.lt_of_lt_of_le (Nat.pow_pos (by decide)) (canonical_pow_le l hc hz)

theorem eq_zero_vec_of_test (r : List Nat)
    (h : r.length = 0 ∨ (r.length = 1 ∧ r.head? = some 0)) (hne : r ≠ []) : r = [0] := by
  rcases h with h | ⟨hlen, hhead⟩
  · exact absurd (List.length_eq_zero.mp h) hne
  · match r, hlen, hhead with
    | [y], _, hhead =>
      simp only [List.head?_cons, Option.some.injEq] at hhead
      rw [hhead]

/-- The body of `op_add` once `left_clone` and `right_clone` are chosen. -/
theorem op_add_body (l r : List Nat) (hl : Canonical l) (hr : Canonical r)
    (hlen : r.length ≤ l.length) :
    ∃ res, (if r.length = 0 ∨ (r.length = 1 ∧ r.head? = some 0) then Except.ok l
        else pop_zeros (add_loop l r)) = Except.ok res ∧
      Canonical res ∧ value res = value l + value r := by
  by_cases hz : r.length = 0 ∨ (r.length = 1 ∧ r.head? = some 0)
  · have h0 := eq_zero_vec_of_test r hz hr.1
    refine ⟨l, by rw [if_pos hz], hl, ?_⟩
    rw [h0]
    simp [value]
  · have hr0 : r ≠ [0] := by
      intro h
      apply hz
      rw [h]
      simp
    have hpos := canonical_value_pos r hr hr0
    match l, hl, hlen with
    | [], hl, _ => exact absurd rfl hl.1
    | x :: xs, hl, hlen =>
      have hx := hl.2.1 x (by simp)
      obtain ⟨hv, hd⟩ := add_loop_spec xs x r (by omega)
        (fun d hd => hl.2.1 d (by simp [hd])) hr.2.1 (by simpa using hlen)
      obtain ⟨res, hok, hcan, hval⟩ := pop_zeros_spec (add_loop (x :: xs) r) hd (by omega)
      exact ⟨res, by rw [if_neg hz, hok], hcan, by rw [hval, hv]⟩

theorem op_add_spec (a b : List Nat) (ha : Canonical a) (hb : Canonical b) :
    ∃ r, op_add a b = .ok r ∧ Canonical r ∧ value r = value a + value b := by
  unfold op_add
  by_cases h : a.length > b.length
  · simp only [if_pos h]
    exact op_add_body a b ha hb (by omega)
  · simp only [if_neg h]
    obtain ⟨res, hok, hcan, hval⟩ := op_add_body b a hb ha (by omega)
    exact ⟨res, hok, hcan, by rw [hval, Nat.add_comm]⟩

/-! ## Facts about the subtraction loop -/

theorem toInt32_small (x : Nat) (h : x ≤ 9) : toInt32 x = (x : Int) := by
  unfold toInt32
  have hm : x % 2 ^ 32 = x := Nat.mod_eq_of_lt (by norm_num; omega)
  rw [hm, if_pos (by norm_num; omega)]

theorem toUInt32_small (z : Int) (h0 : 0 ≤ z) (h1 : z ≤ 9) : ((toUInt32 z : Nat) : Int) = z := by
  unfold toUInt32
  rw [Int.emod_eq_of_lt h0 (by norm_num; omega)]
  exact Int.toNat_of_nonneg h0

theorem sub_loop_spec : ∀ (l r : List Nat) (b : Int),
    (∀ d ∈ l, d ≤ 9) → (∀ d ∈ r, d ≤ 9) → (b = 0 ∨ b = 1) →
    (sub_loop l r b).1.length = l.length ∧ (∀ d ∈ (sub_loop l r b).1, d ≤ 9) ∧
      ((sub_loop l r b).2 = 0 ∨ (sub_loop l r b).2 = 1) ∧
      (value l : Int) + 10 ^ l.length * (sub_loop l r b).2 =
        (value (sub_loop l r b).1 : Int) + (value (r.take l.length) : Int) + b
  | [], r, b, _, _, hb => by
    simp [sub_loop, value, hb]
  | x :: xs, [], b, hl, hr, hb => by
    have hrt : ∀ d ∈ ([] : List Nat), d ≤ 9 := hr
    have hx := hl x (by simp)
    have hxs : ∀ d ∈ xs, d ≤ 9 := fun d hd => hl d (by simp [hd])
    have hb0 : 0 ≤ b := by omega
    have hb1 : b ≤ 1 := by omega
    simp only [sub_loop, toInt32_small x hx, List.tail]
    by_cases hc : (x : Int) - b < 0 ∨ (x : Int) - b < (0 : Int)
    · simp only [if_pos hc]
      obtain ⟨h1, h2, h3, h4⟩ := sub_loop_spec xs [] 1 hxs hrt (Or.inr rfl)
      have hdig := toUInt32_small ((x : Int) - b + 10 - (0 : Int)) (by omega) (by omega)
      refine ⟨by simp [h1], ?_, h3, ?_⟩
      · intro d hd
        rcases List.mem_cons.mp hd with h | h
        · rw [h]; omega
        · exact h2 d h
      · simp only [value, List.length_cons, pow_succ, List.take]
        push_cast
        rw [hdig]
        try simp only [List.take_nil, value, Nat.cast_zero] at h4
        linarith
    · simp only [if_neg hc]
      obtain ⟨h1, h2, h3, h4⟩ := sub_loop_spec xs [] 0 hxs hrt (Or.inl rfl)
      have hdig := toUInt32_small ((x : Int) - b - (0 : Int)) (by omega) (by omega)
      refine ⟨by simp [h1], ?_, h3, ?_⟩
      · intro d hd
        rcases List.mem_cons.mp hd with h | h
        · rw [h]; omega
        · exact h2 d h
      · simp only [value, List.length_cons, pow_succ, List.take]
        push_cast
        rw [hdig]
        try simp only [List.take_nil, value, Nat.cast_zero] at h4
        linarith
  | x :: xs, y :: ys, b, hl, hr, hb => by
    have hy := hr y (by simp)
    have hrt : ∀ d ∈ ys, d ≤ 9 := fun d hd => hr d (by simp [hd])
    have hx := hl x (by simp)
    have hxs : ∀ d ∈ xs, d ≤ 9 := fun d hd => hl d (by simp [hd])
    have hb0 : 0 ≤ b := by omega
    have hb1 : b ≤ 1 := by omega
    simp only [sub_loop, toInt32_small x hx, toInt32_small y hy, List.tail]
    by_cases hc : (x : Int) - b < 0 ∨ (x : Int) - b < (y : Int)
    · simp only [if_pos hc]
      obtain ⟨h1, h2, h3, h4⟩ := sub_loop_spec xs ys 1 hxs hrt (Or.inr rfl)
      have hdig := toUInt32_small ((x : Int) - b + 10 - (y : Int)) (by omega) (by omega)
      refine ⟨by simp [h1], ?_, h3, ?_⟩
      · intro d hd
        rcases List.mem_cons.mp hd with h | h
        · rw [h]; omega
        · exact h2 d h
      · simp only [value, List.length_cons, pow_succ, List.take]
        push_cast
        rw [hdig]
        try simp only [List.take_nil, value, Nat.cast_zero] at h4
        linarith
    · simp only [if_neg hc]
      obtain ⟨h1, h2, h3, h4⟩ := sub_loop_spec xs ys 0 hxs hrt (Or.inl rfl)
      have hdig := toUInt32_small ((x : Int) - b - (y : Int)) (by omega) (by omega)
      refine ⟨by simp [h1], ?_, h3, ?_⟩
      · intro d hd
        rcases List.mem_cons.mp hd with h | h
        · rw [h]; omega
        · exact h2 d h
      · simp only [value, List.length_cons, pow_succ, List.take]
        push_cast
        rw [hdig]
        try simp only [List.take_nil, value, Nat.cast_zero] at h4
        linarith

theorem equal_scan_self (a : List Nat) : equal_scan a a = true := by
  induction a with
  | nil => rfl
  | cons x xs ih => simp [equal_scan, ih]

theorem op_equal_eq_decide (a b : List Nat) : op_equal a b = decide (a = b) := by
  unfold op_equal
  by_cases h : a = b
  · subst h
    simp [equal_scan_self]
  · simp [h]

theorem length_le_of_value_le (a b : List Nat) (ha : Canonical a) (hb : Canonical b)
    (h : value b ≤ value a) : b.length ≤ a.length := by
  by_cases hb0 : b = [0]
  · subst hb0
    have : a.length ≠ 0 := fun h0 => ha.1 (List.length_eq_zero.mp h0)
    simp only [List.length_singleton]
    omega
  · have h1 := canonical_pow_le b hb hb0
    have h2 := value_lt_pow a ha.2.1
    by_contra hlen
    have : 10 ^ a.length ≤ 10 ^ (b.length - 1) := Nat.pow_le_pow_right (by decide) (by omega)
    omega

theorem op_subtract_spec (a b : List Nat) (ha : Canonical a) (hb : Canonical b)
    (h : value b ≤ value a) :
    (sub_loop a b 0).2 = 0 ∧
      ∃ r, op_subtract a b = .ok r ∧ Canonical r ∧ value r = value a - value b := by
  have hlen := length_le_of_value_le a b ha hb h
  obtain ⟨hl1, hdig, hbor, hsum⟩ := sub_loop_spec a b 0 ha.2.1 hb.2.1 (Or.inl rfl)
  rw [List.take_of_length_le hlen] at hsum
  have hres := value_lt_pow (sub_loop a b 0).1 hdig
  have hborrow : (sub_loop a b 0).2 = 0 := by
    rcases hbor with h0 | h1
    · exact h0
    · rw [h1] at hsum
      rw [hl1] at hres
      have hp : ((10 ^ a.length : Nat) : Int) = 10 ^ a.length := by push_cast; rfl
      rw [← hp] at hsum
      omega
  refine ⟨hborrow, ?_⟩
  unfold op_subtract
  rw [op_equal_eq_decide]
  by_cases hab : a = b
  · subst hab
    refine ⟨vec_zero, by simp, by decide, ?_⟩
    simp [vec_zero, value]
  · rw [decide_eq_false hab, if_neg Bool.false_ne_true]
    by_cases hz : b.length = 0 ∨ (b.length = 1 ∧ b.head? = some 0)
    · have h0 := eq_zero_vec_of_test b hz hb.1
      refine ⟨a, by rw [if_pos hz], ha, ?_⟩
      rw [h0]
      simp [value]
    · rw [if_neg hz]
      simp only [hborrow]
      rw [if_neg (by decide)]
      have hne : value a ≠ value b := fun hv => hab (canonical_unique a b ha hb hv)
      rw [hborrow] at hsum
      have hval : value (sub_loop a b 0).1 = value a - value b := by omega
      obtain ⟨r, hok, hcan, hr⟩ := pop_zeros_spec (sub_loop a b 0).1 hdig (by omega)
      exact ⟨r, hok, hcan, by rw [hr, hval]⟩

/-! ## Facts about the comparisons -/

theorem vec_lt_irrefl (a : List Nat) : vec_lt a a = false := by
  induction a with
  | nil => rfl
  | cons x xs ih => simp [vec_lt, ih]

theorem less_scan_self (a : List Nat) : less_scan a a = false := by
  induction a with
  | nil => rfl
  | cons x xs ih => simp [less_scan, ih]

theorem op_less_than_self (a : List Nat) : op_less_than a a = false := by
  simp [op_less_than, vec_lt_irrefl, less_scan_self]

theorem op_subtract_self (a : List Nat) : op_subtract a a = .ok vec_zero := by
  simp [op_subtract, op_equal_eq_decide]

/-! ## Facts about the Fibonacci loop -/

theorem fib_loop_spec : ∀ (k j : Nat) (n_minus_1 n_minus_2 fib_n : List Nat),
    Canonical n_minus_1 → Canonical n_minus_2 →
    value n_minus_1 = fibSpec (j + 1) → value n_minus_2 = fibSpec j →
    ∃ r, fib_loop (k + 1) n_minus_1 n_minus_2 fib_n = .ok r ∧ Canonical r ∧
      value r = fibSpec (j + k + 2)
  | 0, j, n1, n2, _, h1, h2, hv1, hv2 => by
    obtain ⟨r, hok, hcan, hval⟩ := op_add_spec n1 n2 h1 h2
    refine ⟨r, ?_, hcan, ?_⟩
    · simp only [fib_loop, hok]
      rfl
    · rw [hval, hv1, hv2]
      rfl
  | k + 1, j, n1, n2, _, h1, h2, hv1, hv2 => by
    obtain ⟨r, hok, hcan, hval⟩ := op_add_spec n1 n2 h1 h2
    have hr : value r = fibSpec (j + 1 + 1) := by
      rw [hval, hv1, hv2]
      rfl
    obtain ⟨res, hres, hrc, hrv⟩ := fib_loop_spec k (j + 1) r n1 r hcan h1 hr hv1
    refine ⟨res, ?_, hrc, ?_⟩
    · rw [fib_loop, hok]
      exact hres
    · rw [hrv]
      congr 1
      omega

theorem fibonacci_large_iter_spec (n : Nat) (hn : n < 2 ^ 31 - 1) :
    ∃ r, fibonacci_large_iter n = .ok r ∧ Canonical r ∧ value r = fibSpec n := by
  unfold fibonacci_large_iter
  by_cases h0 : n = 0
  · subst h0
    exact ⟨[0], rfl, by decide, rfl⟩
  by_cases h1 : n = 1
  · subst h1
    exact ⟨[1], rfl, by decide, rfl⟩
  rw [if_neg h0, if_neg h1, if_pos hn]
  obtain ⟨k, hk⟩ : ∃ k, n = k + 2 := ⟨n - 2, by omega⟩
  subst hk
  obtain ⟨r, hok, hcan, hval⟩ :=
    fib_loop_spec k 0 [1] [0] [] (by decide) (by decide) rfl rfl
  refine ⟨r, ?_, hcan, ?_⟩
  · rw [show k + 2 - 1 = k + 1 by omega]
    exact hok
  · rw [hval]
    congr 1
    omega

/-! ## The unsigned kernels -/

/-- C1: for every pair of canonical magnitudes `a` and `b`, `op_add a b` returns a canonical
magnitude whose decimal value is `value a + value b`. -/
theorem C1_op_add_value (a b : List Nat) (ha : Canonical a) (hb : Canonical b) :
    ∃ r, op_add a b = .ok r ∧ Canonical r ∧ value r = value a + value b :=
  op_add_spec a b ha hb

theorem C1_op_add_value_witness :
    Canonical [9, 9] ∧ Canonical [5] ∧
      ∃ r, op_add [9, 9] [5] = .ok r ∧ Canonical r ∧ value r = value [9, 9] + value [5] :=
  ⟨by decide, by decide, C1_op_add_value [9, 9] [5] (by decide) (by decide)⟩

/-- C2: for every pair of canonical magnitudes `a` and `b` with `value a ≥ value b`, the final
borrow of the subtraction loop is 0 and `op_subtract a b` returns a canonical magnitude whose
decimal value is `value a - value b`. -/
theorem C2_op_subtract_value (a b : List Nat) (ha : Canonical a) (hb : Canonical b)
    (h : value b ≤ value a) :
    (sub_loop a b 0).2 = 0 ∧
      ∃ r, op_subtract a b = .ok r ∧ Canonical r ∧ value r = value a - value b :=
  op_subtract_spec a b ha hb h

theorem C2_op_subtract_value_witness :
    Canonical [4, 5, 6, 7, 8] ∧ Canonical [0, 8, 7] ∧ value [0, 8, 7] ≤ value [4, 5, 6, 7, 8] ∧
      ((sub_loop [4, 5, 6, 7, 8] [0, 8, 7] 0).2 = 0 ∧
        ∃ r, op_subtract [4, 5, 6, 7, 8] [0, 8, 7] = .ok r ∧ Canonical r ∧
          value r = value [4, 5, 6, 7, 8] - value [0, 8, 7]) :=
  ⟨by decide, by decide, by decide,
    C2_op_subtract_value [4, 5, 6, 7, 8] [0, 8, 7] (by decide) (by decide) (by decide)⟩

/-- C3 (fails on the code): with the canonical magnitudes `a = [5]` (five) and `b = [3, 1]`
(thirteen), `value a < value b`, yet `op_subtract a b` does not fail: the loop only visits the
cells of `a`, the final borrow is 0, and the digit sequence `[2]` is returned. -/
theorem C3_op_subtract_longer_subtrahend_returns :
    Canonical [5] ∧ Canonical [3, 1] ∧ value [5] < value [3, 1] ∧
      op_subtract [5] [3, 1] = .ok [2] :=
  ⟨by decide, by decide, by decide, rfl⟩

/-- C4 (fails on the code): for the canonical magnitudes `a = [0, 1]` (ten) and `b = [5]`
(five), `op_less_than a b` is true although `a` has more digits and the larger value: the
vector comparison from index 0 answers first. -/
theorem C4_op_less_than_ten_five :
    Canonical [0, 1] ∧ Canonical [5] ∧ value [5] < value [0, 1] ∧
      op_less_than [0, 1] [5] = true :=
  ⟨by decide, by decide, by decide, rfl⟩

/-! ## Fibonacci -/

/-- C5 (fails on the code as stated): `n = 2 ^ 31 - 1` is below `2 ^ 31`, yet
`fibonacci_large_iter` returns no digit sequence for it: after the iteration `i = INT_MAX` the
`int` counter would have to be incremented past `INT_MAX`. -/
theorem C5_fibonacci_large_iter_int_max_counterexample :
    (2 ^ 31 - 1 : Nat) < 2 ^ 31 ∧
      fibonacci_large_iter (2 ^ 31 - 1) = .error .undefined_behaviour := by
  refine ⟨by norm_num, ?_⟩
  unfold fibonacci_large_iter
  rw [if_neg (by norm_num), if_neg (by norm_num), if_neg (by norm_num)]

/-- C5, amended: for every `n < 2 ^ 31 - 1`, `fibonacci_large_iter n` returns the canonical
digit sequence of the `n`-th Fibonacci number (`F(0) = 0`, `F(1) = 1`,
`F(i) = F(i-1) + F(i-2)`); in particular `n = 0` gives `[0]`, `n = 1` gives `[1]` and `n = 12`
gives `[4, 4, 1]`. -/
theorem C5_fibonacci_large_iter_value (n : Nat) (hn : n < 2 ^ 31 - 1) :
    (∃ r, fibonacci_large_iter n = .ok r ∧ Canonical r ∧ value r = fibSpec n) ∧
      fibonacci_large_iter 0 = .ok [0] ∧ fibonacci_large_iter 1 = .ok [1] ∧
      fibonacci_large_iter 12 = .ok [4, 4, 1] := by
  refine ⟨fibonacci_large_iter_spec n hn, rfl, rfl, ?_⟩
  obtain ⟨r, hok, hcan, hval⟩ := fibonacci_large_iter_spec 12 (by norm_num)
  have hr : r = [4, 4, 1] := canonical_unique r [4, 4, 1] hcan (by decide) (by rw [hval]; rfl)
  rw [hok, hr]

theorem C5_fibonacci_large_iter_value_witness :
    30 < 2 ^ 31 - 1 ∧
      ((∃ r, fibonacci_large_iter 30 = .ok r ∧ Canonical r ∧ value r = fibSpec 30) ∧
        fibonacci_large_iter 0 = .ok [0] ∧ fibonacci_large_iter 1 = .ok [1] ∧
        fibonacci_large_iter 12 = .ok [4, 4, 1]) :=
  ⟨by norm_num, C5_fibonacci_large_iter_value 30 (by norm_num)⟩

/-! ## Signed addition and subtraction -/

/-- C6 (fails on the code): for the opposite-sign operands `-3` and `+5`, `op_add_tuple`
returns the magnitude `[2]` with `is_positive = false`; for `+3` and `-5` it does not return at
all, `op_subtract [3] [5]` throws. -/
theorem C6_op_add_tuple_opposite_signs :
    op_add_tuple (false, [3]) (true, [5]) = .ok (false, [2]) ∧
      op_add_tuple (true, [3]) (false, [5]) =
        .error (.invalid_argument "Borrow is still 1 after subtraction") :=
  ⟨rfl, rfl⟩

/-- C7 (fails on the code): for the negative operands `-3` and `-5`, `operator+` returns the
magnitude `[2]`, not the magnitude of value 8. -/
theorem C7_operator_plus_two_negatives :
    Canonical [3] ∧ Canonical [5] ∧
      operator_plus ⟨false, [3]⟩ ⟨false, [5]⟩ = .ok ⟨false, [2]⟩ :=
  ⟨by decide, by decide, rfl⟩

/-- C8: for operands of opposite sign with canonical magnitudes, `operator-` returns the
canonical magnitude of value `value a + value b` with the sign flag of the left operand; when
the left operand is positive the result is `operator==` to every positive integer with the
canonical magnitude of that value; and `9876543210 - (-9876543210)` is `operator==` to
`19753086420`. -/
theorem C8_operator_minus_opposite_signs (a b : Large_Numbers)
    (ha : Canonical a.value) (hb : Canonical b.value) (hs : a.is_positive ≠ b.is_positive) :
    (∃ r, operator_minus a b = .ok r ∧ r.is_positive = a.is_positive ∧ Canonical r.value ∧
        value r.value = value a.value + value b.value ∧
        (a.is_positive = true → ∀ c : Large_Numbers, c.is_positive = true →
          Canonical c.value → value c.value = value a.value + value b.value →
          operator_eq r c = true)) ∧
      ∃ r, operator_minus ⟨true, [0, 1, 2, 3, 4, 5, 6, 7, 8, 9]⟩
          ⟨false, [0, 1, 2, 3, 4, 5, 6, 7, 8, 9]⟩ = .ok r ∧
        operator_eq r ⟨true, [0, 2, 4, 6, 8, 0, 3, 5, 7, 9, 1]⟩ = true := by
  have general : ∀ a b : Large_Numbers, Canonical a.value → Canonical b.value →
      a.is_positive ≠ b.is_positive →
      ∃ r, operator_minus a b = .ok r ∧ r.is_positive = a.is_positive ∧ Canonical r.value ∧
        value r.value = value a.value + value b.value ∧
        (a.is_positive = true → ∀ c : Large_Numbers, c.is_positive = true →
          Canonical c.value → value c.value = value a.value + value b.value →
          operator_eq r c = true) := by
    intro a b ha hb hs
    obtain ⟨sa, va⟩ := a
    obtain ⟨sb, vb⟩ := b
    obtain ⟨r, hok, hcan, hval⟩ := op_add_spec va vb ha hb
    have hrun : operator_minus ⟨sa, va⟩ ⟨sb, vb⟩ = .ok ⟨sa, r⟩ := by
      cases sa <;> cases sb <;> simp at hs <;>
        simp [operator_minus, op_subtract_tuple, hok]
    refine ⟨⟨sa, r⟩, hrun, rfl, hcan, hval, ?_⟩
    intro hpos c hc hcc hcv
    have hrc : r = c.value := canonical_unique r c.value hcan hcc (by rw [hval, hcv])
    simp only [operator_eq, op_equal_eq_decide]
    simp only at hpos
    simp [hpos, hc, hrc]
  refine ⟨general a b ha hb hs, ?_⟩
  obtain ⟨r, hok, hpos, _, _, heq⟩ := general ⟨true, [0, 1, 2, 3, 4, 5, 6, 7, 8, 9]⟩
    ⟨false, [0, 1, 2, 3, 4, 5, 6, 7, 8, 9]⟩ (by decide) (by decide) (by decide)
  exact ⟨r, hok, heq rfl ⟨true, [0, 2, 4, 6, 8, 0, 3, 5, 7, 9, 1]⟩ rfl (by decide) (by decide)⟩

theorem C8_operator_minus_opposite_signs_witness :
    Canonical (Large_Numbers.mk true [5]).value ∧
      Canonical (Large_Numbers.mk false [0, 1]).value ∧
      (Large_Numbers.mk true [5]).is_positive ≠ (Large_Numbers.mk false [0, 1]).is_positive ∧
      ((∃ r, operator_minus ⟨true, [5]⟩ ⟨false, [0, 1]⟩ = .ok r ∧
          r.is_positive = (Large_Numbers.mk true [5]).is_positive ∧ Canonical r.value ∧
          value r.value =
            value (Large_Numbers.mk true [5]).value +
              value (Large_Numbers.mk false [0, 1]).value ∧
          ((Large_Numbers.mk true [5]).is_positive = true → ∀ c : Large_Numbers,
            c.is_positive = true → Canonical c.value →
            value c.value =
              value (Large_Numbers.mk true [5]).value +
                value (Large_Numbers.mk false [0, 1]).value →
            operator_eq r c = true)) ∧
        ∃ r, operator_minus ⟨true, [0, 1, 2, 3, 4, 5, 6, 7, 8, 9]⟩
            ⟨false, [0, 1, 2, 3, 4, 5, 6, 7, 8, 9]⟩ = .ok r ∧
          operator_eq r ⟨true, [0, 2, 4, 6, 8, 0, 3, 5, 7, 9, 1]⟩ = true) :=
  ⟨by decide, by decide, by decide,
    C8_operator_minus_opposite_signs ⟨true, [5]⟩ ⟨false, [0, 1]⟩
      (by decide) (by decide) (by decide)⟩

/-- C9: for every signed integer `x` with a canonical magnitude and either sign, the sum of
`x` and its negation (same magnitude, opposite sign flag), in either operand order, returns a
value for which `Is_Zero` and `Is_Positive` are both true. -/
theorem C9_add_negation_is_zero (x : Large_Numbers) (_hx : Canonical x.value) :
    (∃ r, operator_plus x ⟨!x.is_positive, x.value⟩ = .ok r ∧
        Is_Zero r = true ∧ Is_Positive r = true) ∧
      ∃ r, operator_plus ⟨!x.is_positive, x.value⟩ x = .ok r ∧
        Is_Zero r = true ∧ Is_Positive r = true := by
  obtain ⟨s, v⟩ := x
  have hrun : ∀ p q : Bool, p ≠ q →
      operator_plus ⟨p, v⟩ ⟨q, v⟩ = .ok ⟨false, vec_zero⟩ := by
    intro p q hpq
    cases p <;> cases q <;> simp at hpq <;>
      simp [operator_plus, op_add_tuple, op_subtract_self, op_less_than_self]
  have hzero : Is_Zero ⟨false, vec_zero⟩ = true := rfl
  have hposv : Is_Positive ⟨false, vec_zero⟩ = true := rfl
  exact ⟨⟨_, hrun s (!s) (by cases s <;> decide), hzero, hposv⟩,
    ⟨_, hrun (!s) s (by cases s <;> decide), hzero, hposv⟩⟩

theorem C9_add_negation_is_zero_witness :
    Canonical (Large_Numbers.mk true [0, 9, 8, 7, 6, 5, 4, 3, 2, 1]).value ∧
      ((∃ r, operator_plus (Large_Numbers.mk true [0, 9, 8, 7, 6, 5, 4, 3, 2, 1])
            ⟨!(Large_Numbers.mk true [0, 9, 8, 7, 6, 5, 4, 3, 2, 1]).is_positive,
              (Large_Numbers.mk true [0, 9, 8, 7, 6, 5, 4, 3, 2, 1]).value⟩ = .ok r ∧
          Is_Zero r = true ∧ Is_Positive r = true) ∧
        ∃ r, operator_plus
            ⟨!(Large_Numbers.mk true [0, 9, 8, 7, 6, 5, 4, 3, 2, 1]).is_positive,
              (Large_Numbers.mk true [0, 9, 8, 7, 6, 5, 4, 3, 2, 1]).value⟩
            (Large_Numbers.mk true [0, 9, 8, 7, 6, 5, 4, 3, 2, 1]) = .ok r ∧
          Is_Zero r = true ∧ Is_Positive r = true) :=
  ⟨by decide, C9_add_negation_is_zero ⟨true, [0, 9, 8, 7, 6, 5, 4, 3, 2, 1]⟩ (by decide)⟩

/-- C10 (fails on the code): for the negative operand `x = -5`, `x + Zero()` does not return:
`op_add_tuple` calls `op_subtract [0] [5]`, which throws. -/
theorem C10_negative_plus_zero_throws :
    Canonical (Large_Numbers.mk false [5]).value ∧
      operator_plus ⟨false, [5]⟩ Zero =
        .error (.invalid_argument "Borrow is still 1 after subtraction") :=
  ⟨by decide, rfl⟩

/-! ## Facts about a zero operand -/

theorem op_less_than_zero_vec (x : List Nat) (hne : x ≠ []) : op_less_than x [0] = false := by
  match x, hne with
  | [d], _ =>
    by_cases hd : d = 0
    · subst hd
      rfl
    · simp [op_less_than, vec_lt, less_scan, hd]
  | d :: e :: rest, _ =>
    by_cases hd : d = 0
    · subst hd
      simp [op_less_than, vec_lt]
    · simp [op_less_than, vec_lt, hd]

theorem op_subtract_zero_vec (x : List Nat) : op_subtract x [0] = .ok x := by
  unfold op_subtract
  rw [op_equal_eq_decide]
  by_cases hx : x = [0]
  · subst hx
    rfl
  · rw [decide_eq_false hx, if_neg Bool.false_ne_true, if_pos (by simp)]

theorem op_add_zero_vec (x : List Nat) (hx : Canonical x) : op_add x [0] = .ok x := by
  obtain ⟨r, hok, hcan, hval⟩ := op_add_spec x [0] hx (by decide)
  have hr : r = x := canonical_unique r x hcan hx (by rw [hval]; simp [value])
  rw [hok, hr]

theorem operator_lt_of_eq (a b : Large_Numbers) (h : operator_eq a b = true) :
    operator_lt a b = false := by
  obtain ⟨sa, va⟩ := a
  obtain ⟨sb, vb⟩ := b
  simp only [operator_eq, op_equal_eq_decide, Bool.and_eq_true, beq_iff_eq,
    decide_eq_true_eq] at h
  obtain ⟨hs, hv⟩ := h
  subst hs
  subst hv
  cases sa <;> simp [operator_lt, op_less_than_self]

/-! ## Signed addition and subtraction, continued -/

/-- C11 (fails on the code): `(-5) + (-13)` returns `+8` while `(-13) + (-5)` returns `+2`, so
the two orders both return and are not `operator==`; and for `3 + (-5)` and `(-5) + 3` neither
order returns, `op_subtract [3] [5]` throws. -/
theorem C11_operator_plus_orders_differ :
    operator_plus ⟨false, [5]⟩ ⟨false, [3, 1]⟩ = .ok ⟨true, [8]⟩ ∧
      operator_plus ⟨false, [3, 1]⟩ ⟨false, [5]⟩ = .ok ⟨true, [2]⟩ ∧
      operator_eq ⟨true, [8]⟩ ⟨true, [2]⟩ = false ∧
      operator_plus ⟨true, [3]⟩ ⟨false, [5]⟩ =
        .error (.invalid_argument "Borrow is still 1 after subtraction") ∧
      operator_plus ⟨false, [5]⟩ ⟨true, [3]⟩ =
        .error (.invalid_argument "Borrow is still 1 after subtraction") :=
  ⟨rfl, rfl, rfl, rfl, rfl⟩

/-- C12 (fails on the code): for `a = 3` and `b = 5`, `a - b` is `-2` and `(a - b) + b`
returns `-3`, which is not `operator==` to `a`. -/
theorem C12_minus_then_plus_three_five :
    operator_minus ⟨true, [3]⟩ ⟨true, [5]⟩ = .ok ⟨false, [2]⟩ ∧
      (operator_minus ⟨true, [3]⟩ ⟨true, [5]⟩ >>= fun d => operator_plus d ⟨true, [5]⟩) =
        .ok ⟨false, [3]⟩ ∧
      operator_eq ⟨false, [3]⟩ ⟨true, [3]⟩ = false :=
  ⟨rfl, rfl, rfl⟩

/-- C13 (fails on the code): `10 - 5` returns `-5` and `(-10) - (-5)` returns `+5`, because
`op_less_than [0, 1] [5]` is true and the operands are swapped; `5 - 10` and `(-5) - (-10)`
return `-5` and `+5`. -/
theorem C13_operator_minus_same_sign :
    operator_minus ⟨true, [0, 1]⟩ ⟨true, [5]⟩ = .ok ⟨false, [5]⟩ ∧
      operator_minus ⟨false, [0, 1]⟩ ⟨false, [5]⟩ = .ok ⟨true, [5]⟩ ∧
      operator_minus ⟨true, [5]⟩ ⟨true, [0, 1]⟩ = .ok ⟨false, [5]⟩ ∧
      operator_minus ⟨false, [5]⟩ ⟨false, [0, 1]⟩ = .ok ⟨true, [5]⟩ :=
  ⟨rfl, rfl, rfl, rfl⟩

/-- C14: for every signed integer `x` with a canonical magnitude and a zero subtrahend
(magnitude `[0]`, either sign flag), `x - z` returns `x` unchanged: the same digit sequence and
the sign flag of `x`. -/
theorem C14_operator_minus_zero (x : Large_Numbers) (hx : Canonical x.value)
    (z_is_positive : Bool) :
    operator_minus x ⟨z_is_positive, [0]⟩ = .ok x := by
  obtain ⟨s, v⟩ := x
  have hlt := op_less_than_zero_vec v hx.1
  have hsub := op_subtract_zero_vec v
  have hadd := op_add_zero_vec v hx
  cases s <;> cases z_is_positive <;>
    simp [operator_minus, op_subtract_tuple, hlt, hsub, hadd]

theorem C14_operator_minus_zero_witness :
    Canonical (Large_Numbers.mk false [0, 1, 2]).value ∧
      operator_minus (Large_Numbers.mk false [0, 1, 2]) ⟨true, [0]⟩ =
        .ok (Large_Numbers.mk false [0, 1, 2]) :=
  ⟨by decide, C14_operator_minus_zero ⟨false, [0, 1, 2]⟩ (by decide) true⟩

/-! ## Ordering of signed integers -/

/-- C15: a positive `a` is never `<` a negative `b`; a negative `a` is always `<` a positive
`b`; and when `a` and `b` carry the same sign flag, `a < b` is `op_less_than` on the two
magnitudes, for negatives too. -/
theorem C15_operator_lt_cases (va vb : List Nat) :
    operator_lt ⟨true, va⟩ ⟨false, vb⟩ = false ∧
      operator_lt ⟨false, va⟩ ⟨true, vb⟩ = true ∧
      ∀ s : Bool, operator_lt ⟨s, va⟩ ⟨s, vb⟩ = op_less_than va vb := by
  refine ⟨rfl, rfl, ?_⟩
  intro s
  cases s <;> simp [operator_lt]

/-- C16 (fails on the code): for the two zeros `p = (true, [0])` and `n = (false, [0])`,
`p == n` is false and `n < p` is true; only `p < n` is false. -/
theorem C16_signed_zeros_compare :
    operator_eq ⟨true, [0]⟩ ⟨false, [0]⟩ = false ∧
      operator_lt ⟨false, [0]⟩ ⟨true, [0]⟩ = true ∧
      operator_lt ⟨true, [0]⟩ ⟨false, [0]⟩ = false :=
  ⟨rfl, rfl, rfl⟩

/-- C17: for every pair of signed integers `a` and `b`, exactly one of `a < b`, `a == b`,
`a > b` holds. -/
theorem C17_operator_trichotomy (a b : Large_Numbers) :
    (operator_lt a b = true ∧ operator_eq a b = false ∧ operator_gt a b = false) ∨
      (operator_lt a b = false ∧ operator_eq a b = true ∧ operator_gt a b = false) ∨
      (operator_lt a b = false ∧ operator_eq a b = false ∧ operator_gt a b = true) := by
  have key := operator_lt_of_eq a b
  unfold operator_gt
  cases hl : operator_lt a b <;> cases he : operator_eq a b <;> simp
  rw [hl] at key
  exact absurd (key he) (by decide)

/-! ## Canonical form -/

/-- C18 (fails on the code): `trim [0]` and `trim [0, 0, 0]` do not return `[0]`; the loop pops
every cell and then reads `back()` of the empty vector. -/
theorem C18_trim_all_zero :
    trim [0] = .error .undefined_behaviour ∧ trim [0, 0, 0] = .error .undefined_behaviour :=
  ⟨rfl, rfl⟩

/-- C19 (fails on the code): for the non-empty sequence `m = [0, 0]`, `trim (trim m)` is not
defined, because `trim m` already does not return. -/
theorem C19_trim_twice_all_zero :
    (trim [0, 0] >>= trim) = .error .undefined_behaviour :=
  rfl

/-- C20 (fails on the code): the integer built from the native `0` and the ones parsed from
`"0"`, `"-0"` and `"000"` all carry the empty digit sequence, not `[0]`; `Is_Zero` is false for
each of them and `Is_Positive` is false for the one parsed from `"-0"`. -/
theorem C20_zero_from_constructors :
    Large_Numbers_int64 0 = .ok ⟨true, []⟩ ∧ Large_Numbers_uint64 0 = .ok ⟨true, []⟩ ∧
      Large_Numbers_string ['0'] true = .ok ⟨true, []⟩ ∧
      Large_Numbers_string ['-', '0'] true = .ok ⟨false, []⟩ ∧
      Large_Numbers_string ['0', '0', '0'] true = .ok ⟨true, []⟩ ∧
      Is_Zero ⟨true, []⟩ = false ∧ Is_Zero ⟨false, []⟩ = false ∧
      Is_Positive ⟨false, []⟩ = false := by
  refine ⟨?_, ?_, rfl, rfl, rfl, rfl, rfl, rfl⟩
  · have h : i64_to_digits 0 = .ok (true, []) := by
      simp [i64_to_digits, i64_digits_loop]
    simp only [Large_Numbers_int64, h]
    rfl
  · have h : i64_to_digits (toInt64 ((0 : Nat) : Int)) = .ok (true, []) := by
      simp [i64_to_digits, i64_digits_loop, toInt64]
    simp only [Large_Numbers_uint64, h]
    rfl

/-! ## Facts about `i64_to_digits` -/

theorem canonical_cons (d : Nat) (rest : List Nat) (hd : d ≤ 9) (hr : Canonical rest)
    (hpos : 0 < value rest) : Canonical (d :: rest) := by
  obtain ⟨hne, hdig, hlast⟩ := hr
  refine ⟨by simp, ?_, Or.inr ?_⟩
  · intro e he
    rcases List.mem_cons.mp he with h | h
    · rw [h]; exact hd
    · exact hdig e h
  · rcases hlast with h0 | hl
    · rw [h0] at hpos
      simp [value] at hpos
    · match rest, hne, hl with
      | y :: ys, _, hl => rw [List.getLast?_cons_cons]; exact hl

theorem i64_digits_loop_nonpos (c : Int) (h : c ≤ 0) : i64_digits_loop c = [] := by
  rw [i64_digits_loop, if_neg (by omega)]

theorem i64_digits_loop_spec (m : Nat) (hm : 0 < m) :
    Canonical (i64_digits_loop (m : Int)) ∧ value (i64_digits_loop (m : Int)) = m := by
  induction m using Nat.strong_induction_on with
  | _ m ih =>
    have hdig : ((toUInt32 ((m : Int) % 10) : Nat) : Int) = (m : Int) % 10 :=
      toUInt32_small _ (by omega) (by omega)
    have hdig' : toUInt32 ((m : Int) % 10) = m % 10 := by omega
    have hdiv : (m : Int) / 10 = ((m / 10 : Nat) : Int) := by omega
    rw [i64_digits_loop, if_pos (by omega), hdig', hdiv]
    by_cases hq : m / 10 = 0
    · rw [hq, i64_digits_loop_nonpos _ (by simp)]
      have hlt : m % 10 = m := by omega
      rw [hlt]
      refine ⟨⟨by simp, ?_, Or.inr ?_⟩, by simp [value]⟩
      · intro e he
        simp at he
        omega
      · simp
        omega
    · obtain ⟨hcan, hval⟩ := ih (m / 10) (by omega) (by omega)
      refine ⟨canonical_cons _ _ (by omega) hcan (by omega), ?_⟩
      simp only [value, hval]
      omega

theorem toInt64_small (z : Int) (h0 : -2 ^ 63 ≤ z) (h1 : z < 2 ^ 63) : toInt64 z = z := by
  unfold toInt64
  omega

theorem i64_to_digits_spec (n : Int) (hmin : -2 ^ 63 < n) (_hmax : n < 2 ^ 63) (hn : n ≠ 0) :
    ∃ ds, i64_to_digits n = .ok (decide (n ≥ 0), ds) ∧ Canonical ds ∧
      value ds = n.natAbs := by
  unfold i64_to_digits
  rw [if_neg (by omega)]
  by_cases hpos : n ≥ 0
  · obtain ⟨m, hm⟩ : ∃ m : Nat, n = (m : Int) := ⟨n.natAbs, by omega⟩
    subst hm
    obtain ⟨hcan, hval⟩ := i64_digits_loop_spec m (by omega)
    refine ⟨i64_digits_loop (m : Int), ?_, hcan, by simpa using hval⟩
    simp only [hpos, decide_True, if_true]
  · obtain ⟨m, hm⟩ : ∃ m : Nat, n = -(m : Int) := ⟨n.natAbs, by omega⟩
    subst hm
    obtain ⟨hcan, hval⟩ := i64_digits_loop_spec m (by omega)
    refine ⟨i64_digits_loop (m : Int), ?_, hcan, by simpa using hval⟩
    simp only [hpos, decide_False, if_false, Bool.false_eq_true, neg_neg]

/-- C21: for every nonzero 64-bit signed integer `n` other than the minimum value,
`i64_to_digits n` returns the sign flag `n ≥ 0` together with the canonical digit sequence of
value `|n|`, and the constructor from `int64_t` stores exactly that pair. -/
theorem C21_i64_to_digits_value (n : Int) (hmin : -2 ^ 63 < n) (hmax : n < 2 ^ 63)
    (hn : n ≠ 0) :
    ∃ ds, i64_to_digits n = .ok (decide (n ≥ 0), ds) ∧ Canonical ds ∧
      value ds = n.natAbs ∧ Large_Numbers_int64 n = .ok ⟨decide (n ≥ 0), ds⟩ := by
  obtain ⟨ds, hok, hcan, hval⟩ := i64_to_digits_spec n hmin hmax hn
  refine ⟨ds, hok, hcan, hval, ?_⟩
  simp only [Large_Numbers_int64, hok]
  rfl

theorem C21_i64_to_digits_value_witness :
    -2 ^ 63 < (-9876543210 : Int) ∧ (-9876543210 : Int) < 2 ^ 63 ∧ (-9876543210 : Int) ≠ 0 ∧
      ∃ ds, i64_to_digits (-9876543210) = .ok (decide ((-9876543210 : Int) ≥ 0), ds) ∧
        Canonical ds ∧ value ds = (-9876543210 : Int).natAbs ∧
        Large_Numbers_int64 (-9876543210) = .ok ⟨decide ((-9876543210 : Int) ≥ 0), ds⟩ :=
  ⟨by norm_num, by norm_num, by norm_num,
    C21_i64_to_digits_value (-9876543210) (by norm_num) (by norm_num) (by norm_num)⟩

/-- C22 (fails on the code): the integer constructed from the unsigned value `2 ^ 64 - 1` is
negative with magnitude `[1]`, and the one constructed from `2 ^ 63 + 5` is negative with the
digits of `2 ^ 63 - 5`: the argument reaches `i64_to_digits` as an `int64_t`. -/
theorem C22_uint64_constructor_high_values :
    Large_Numbers_uint64 (2 ^ 64 - 1) = .ok ⟨false, [1]⟩ ∧
      Large_Numbers_uint64 (2 ^ 63 + 5) =
        .ok ⟨false, [3, 0, 8, 5, 7, 7, 4, 5, 8, 6, 3, 0, 2, 7, 3, 3, 2, 2, 9]⟩ := by
  constructor
  · have h1 : toInt64 (((2 ^ 64 - 1 : Nat) : Nat) : Int) = -1 := by
      simp [toInt64]
    obtain ⟨ds, hok, hcan, hval⟩ :=
      i64_to_digits_spec (-1) (by norm_num) (by norm_num) (by norm_num)
    have hds : ds = [1] := canonical_unique ds [1] hcan (by decide) (by rw [hval]; rfl)
    subst hds
    simp only [Large_Numbers_uint64, h1, hok]
    rfl
  · have h1 : toInt64 (((2 ^ 63 + 5 : Nat) : Nat) : Int) = -9223372036854775803 := by
      simp [toInt64]
    obtain ⟨ds, hok, hcan, hval⟩ :=
      i64_to_digits_spec (-9223372036854775803) (by norm_num) (by norm_num) (by norm_num)
    have hds : ds = [3, 0, 8, 5, 7, 7, 4, 5, 8, 6, 3, 0, 2, 7, 3, 3, 2, 2, 9] :=
      canonical_unique ds _ hcan (by decide) (by rw [hval]; rfl)
    subst hds
    simp only [Large_Numbers_uint64, h1, hok]
    rfl

/-- C23 (fails on the code): the string `"-5"` declared positive is accepted; the constructor
returns the negative integer of magnitude `[5]` instead of failing with `Sign mismatch`. -/
theorem C23_string_constructor_sign_mismatch_accepted :
    Large_Numbers_string ['-', '5'] true = .ok ⟨false, [5]⟩ ∧
      Large_Numbers_string ['5'] false = .ok ⟨true, [5]⟩ :=
  ⟨rfl, rfl⟩

/-! ## Facts about `from_string` -/

theorem from_string_digits_ok (l : List Char) (h : ∀ c ∈ l, c.isDigit = true) :
    ∃ r, from_string_digits l = .ok r := by
  induction l with
  | nil => exact ⟨[], rfl⟩
  | cons c cs ih =>
    obtain ⟨r, hr⟩ := ih (fun d hd => h d (by simp [hd]))
    have hc := h c (by simp)
    exact ⟨(c.toNat - '0'.toNat) :: r, by simp [from_string_digits, hc, hr]⟩

theorem from_string_digits_error (l : List Char) (h : ∃ c ∈ l, c.isDigit = false) :
    from_string_digits l = .error (.invalid_argument "Invalid character in string") := by
  induction l with
  | nil => simp at h
  | cons c cs ih =>
    by_cases hc : c.isDigit = true
    · obtain ⟨d, hd, hbad⟩ := h
      have hd' : d ∈ cs := by
        rcases List.mem_cons.mp hd with h0 | h0
        · rw [h0, hc] at hbad
          exact absurd hbad (by decide)
        · exact h0
      simp [from_string_digits, hc, ih ⟨d, hd', hbad⟩]
    · simp [from_string_digits, hc]

theorem mem_dropWhile_zero_of_not_digit (l : List Char) (c : Char) (hc : c.isDigit = false)
    (hmem : c ∈ l) : c ∈ l.dropWhile (fun c => c == '0') := by
  induction l with
  | nil => simp at hmem
  | cons x xs ih =>
    by_cases hx : x = '0'
    · subst hx
      have hne : c ≠ '0' := by
        intro h0
        rw [h0] at hc
        exact absurd hc (by decide)
      rcases List.mem_cons.mp hmem with h0 | h0
      · exact absurd h0 hne
      · simpa [List.dropWhile] using ih h0
    · have hb : (x == '0') = false := by simpa using hx
      rw [List.dropWhile, hb]
      exact hmem

theorem from_string_cleaned (str : List Char) (hne : str ≠ []) :
    from_string str =
      (from_string_digits ((claim_stripped str).dropWhile (fun c => c == '0')).reverse).map
        (fun value => ⟨!(str.head? == some '-'), value⟩) := by
  have hlen : ¬ str.length = 0 := fun h => hne (List.length_eq_zero.mp h)
  unfold from_string claim_stripped
  rw [if_neg hlen]
  simp only [List.filter_filter, beq_iff_eq]
  have hf : (fun a : Char => (a != ' ' && (a != '\'' && (a != '_' && a != ','))))
      = (fun c : Char => c != ',' && c != '_' && c != '\'' && c != ' ') := by
    funext a
    cases (a != ' ') <;> cases (a != '\'') <;> cases (a != '_') <;> cases (a != ',') <;> rfl
  rw [hf]
  rfl

/-- C24: `from_string` fails on the empty string; on a non-empty string it fails when the
text left after removing one leading `'-'`, truncating at the first `'.'` and deleting every
comma, underscore, apostrophe and space still holds a character that is not a decimal digit,
and it succeeds on every other non-empty string. -/
theorem C24_from_string_failures (str : List Char) (hne : str ≠ []) :
    from_string [] = .error (.invalid_argument "Empty string") ∧
      ((∃ c ∈ claim_stripped str, c.isDigit = false) →
        from_string str = .error (.invalid_argument "Invalid character in string")) ∧
      ((∀ c ∈ claim_stripped str, c.isDigit = true) → ∃ r, from_string str = .ok r) := by
  refine ⟨rfl, ?_, ?_⟩
  · rintro ⟨c, hc, hbad⟩
    have hmem := mem_dropWhile_zero_of_not_digit (claim_stripped str) c hbad hc
    rw [from_string_cleaned str hne,
      from_string_digits_error _ ⟨c, List.mem_reverse.mpr hmem, hbad⟩]
    rfl
  · intro hall
    obtain ⟨r, hr⟩ := from_string_digits_ok
      ((claim_stripped str).dropWhile (fun c => c == '0')).reverse
      (fun c hc => hall c ((List.dropWhile_sublist _).subset (List.mem_reverse.mp hc)))
    rw [from_string_cleaned str hne, hr]
    exact ⟨_, rfl⟩

theorem C24_from_string_failures_witness :
    ['-', '1', ',', '2', '.', 'x'] ≠ [] ∧
      (from_string [] = .error (.invalid_argument "Empty string") ∧
        ((∃ c ∈ claim_stripped ['-', '1', ',', '2', '.', 'x'], c.isDigit = false) →
          from_string ['-', '1', ',', '2', '.', 'x'] =
            .error (.invalid_argument "Invalid character in string")) ∧
        ((∀ c ∈ claim_stripped ['-', '1', ',', '2', '.', 'x'], c.isDigit = true) →
          ∃ r, from_string ['-', '1', ',', '2', '.', 'x'] = .ok r)) :=
  ⟨by decide, C24_from_string_failures ['-', '1', ',', '2', '.', 'x'] (by decide)⟩

/-! ## Facts about the padding loop -/

theorem pad_loop_eq (c : Char) (width : Nat) : ∀ (n : Nat) (str : List Char),
    width - str.length = n → pad_loop c width str = List.replicate n c ++ str
  | 0, str, h => by
    rw [pad_loop, if_neg (by omega)]
    rfl
  | n + 1, str, h => by
    rw [pad_loop, if_pos (by omega),
      pad_loop_eq c width n (c :: str) (by simp only [List.length_cons]; omega)]
    rw [List.replicate_succ', List.append_assoc]
    rfl

theorem toSize_small (w : Int) (h0 : 0 ≤ w) (h1 : w < 2 ^ 31) : toSize w = w.toNat := by
  unfold toSize
  rw [Int.emod_eq_of_lt h0 (by omega)]

/-- C25 (fails on the code): the value parsed from `"000123"` holds the cells `[3, 2, 1]` and
`to_string` appends them in storage order, so the rendering is `"321"`, not `"123"`. -/
theorem C25_parse_then_render_reversed :
    from_string ['0', '0', '0', '1', '2', '3'] = .ok ⟨true, [3, 2, 1]⟩ ∧
      to_string ⟨true, [3, 2, 1]⟩ = ['3', '2', '1'] := by
  refine ⟨rfl, ?_⟩
  unfold to_string to_string_with_padding
  simp only [Bool.not_true, Bool.false_eq_true, if_false, List.nil_append]
  rw [if_pos (Or.inr (by simp [toSize]))]
  rw [pad_loop_eq '0' (toSize 0) 0 _ (by simp [toSize])]
  rfl

theorem to_string_eq (x : Large_Numbers) :
    to_string x = (if !x.is_positive then ['-'] else []) ++ digits_to_string x.value := by
  have h0 : toSize 0 = 0 := rfl
  unfold to_string to_string_with_padding
  by_cases hc : (0 : Int) ≥ 2 ∨ x.value.length < toSize (0 - 1)
  · rw [if_pos hc, h0]
    cases hs : x.is_positive
    · simp only [Bool.not_false, if_true]
      rw [pad_loop_eq '0' 0 0 _ (by omega)]
      rfl
    · simp only [Bool.not_true, Bool.false_eq_true, if_false]
      rw [pad_loop_eq '0' 0 0 _ (by omega)]
      rfl
  · rw [if_neg hc]

/-- C26 (fails on the code): the value `-5`, whose unpadded rendering `"-5"` has two
characters, renders with width 5 and pad `'0'` as `"-00005"`, six characters, not `"-0005"`:
the sign is removed, the rest is padded up to `width`, and the sign is put back. -/
theorem C26_padding_minus_five_six_characters :
    to_string ⟨false, [5]⟩ = ['-', '5'] ∧
      to_string_with_padding ⟨false, [5]⟩ 5 '0' = ['-', '0', '0', '0', '0', '5'] ∧
      (to_string_with_padding ⟨false, [5]⟩ 5 '0').length = 6 := by
  have h : to_string_with_padding ⟨false, [5]⟩ 5 '0' = ['-', '0', '0', '0', '0', '5'] := by
    unfold to_string_with_padding
    simp only [Bool.not_false, if_true]
    rw [if_pos (Or.inl (by decide)), toSize_small 5 (by decide) (by decide)]
    show '-' :: pad_loop '0' 5 ['5'] = _
    rw [pad_loop_eq '0' 5 4 ['5'] rfl]
    rfl
  refine ⟨?_, h, ?_⟩
  · rw [to_string_eq]
    rfl
  · rw [h]
    rfl

/-! ## Multiplication, division and negation -/

/-- C27 (fails on the code as stated): `5 * ONE` does not return a value. -/
theorem C27_operator_mul_one_counterexample :
    operator_mul ⟨true, [5]⟩ ⟨true, vec_one⟩ =
      .error (.invalid_argument "Not implemented yet") :=
  rfl

/-- C27, amended: for every pair of signed integers, `operator*` returns no value: it throws
`invalid_argument("Not implemented yet")`; so do `x * ONE` and `x * ZERO`. -/
theorem C27_operator_mul_not_implemented (x y : Large_Numbers) :
    operator_mul x y = .error (.invalid_argument "Not implemented yet") ∧
      operator_mul x ⟨true, vec_one⟩ = .error (.invalid_argument "Not implemented yet") ∧
      operator_mul x Zero = .error (.invalid_argument "Not implemented yet") :=
  ⟨rfl, rfl, rfl⟩

/-- C28 (fails on the code as stated): `87654 / 780` and `87654 % 780` do not return a
value. -/
theorem C28_operator_div_mod_counterexample :
    operator_div ⟨true, [4, 5, 6, 7, 8]⟩ ⟨true, [0, 8, 7]⟩ =
        .error (.invalid_argument "Not implemented yet") ∧
      operator_mod ⟨true, [4, 5, 6, 7, 8]⟩ ⟨true, [0, 8, 7]⟩ =
        .error (.invalid_argument "Not implemented yet") :=
  ⟨rfl, rfl⟩

/-- C28, amended: for every pair of signed integers, `operator/` and `operator%` return no
value: both throw `invalid_argument("Not implemented yet")`. -/
theorem C28_operator_div_mod_not_implemented (a b : Large_Numbers) :
    operator_div a b = .error (.invalid_argument "Not implemented yet") ∧
      operator_mod a b = .error (.invalid_argument "Not implemented yet") :=
  ⟨rfl, rfl⟩

/-- C29 (fails on the code): evaluating `-x` returns the value with the digit sequence of `x`
and the opposite sign flag, but the object `x` itself carries the opposite sign flag after the
call; for `x = 5` the object is `-5` afterwards. -/
theorem C29_operator_neg_mutates (x : Large_Numbers) :
    (operator_neg x).2 = ⟨!x.is_positive, x.value⟩ ∧
      (operator_neg x).1.is_positive ≠ x.is_positive ∧
      (operator_neg ⟨true, [5]⟩).1 = ⟨false, [5]⟩ := by
  refine ⟨rfl, ?_, rfl⟩
  cases hx : x.is_positive <;> simp [operator_neg, hx]

/-! ## Canonical results of the signed operations -/

theorem pop_zeros_rev_ok (l r : List Nat) (h : pop_zeros_rev l = .ok r) :
    r ≠ [] ∧ r.head? ≠ some 0 ∧ ∀ d ∈ r, d ∈ l := by
  induction l with
  | nil => simp [pop_zeros_rev] at h
  | cons x xs ih =>
    by_cases hx : x = 0
    · subst hx
      simp only [pop_zeros_rev, if_true] at h
      obtain ⟨h1, h2, h3⟩ := ih h
      exact ⟨h1, h2, fun d hd => List.mem_cons_of_mem _ (h3 d hd)⟩
    · simp only [pop_zeros_rev, if_neg hx, Except.ok.injEq] at h
      subst h
      exact ⟨by simp, by simpa using hx, fun d hd => hd⟩

theorem pop_zeros_ok_canonical (v r : List Nat) (hd : ∀ d ∈ v, d ≤ 9)
    (h : pop_zeros v = .ok r) : Canonical r := by
  unfold pop_zeros at h
  cases hrev : pop_zeros_rev v.reverse with
  | error e => simp [hrev, Except.map] at h
  | ok l =>
    simp only [hrev, Except.map, Except.ok.injEq] at h
    subst h
    obtain ⟨h1, h2, h3⟩ := pop_zeros_rev_ok v.reverse l hrev
    refine ⟨by simpa using h1, ?_, Or.inr (by simpa using h2)⟩
    intro d hmem
    exact hd d (List.mem_reverse.mp (h3 d (List.mem_reverse.mp hmem)))

theorem op_subtract_ok_canonical (a b r : List Nat) (ha : Canonical a) (hb : Canonical b)
    (h : op_subtract a b = .ok r) : Canonical r := by
  unfold op_subtract at h
  by_cases he : op_equal a b = true
  · rw [if_pos he] at h
    simp only [Except.ok.injEq] at h
    subst h
    decide
  · rw [if_neg he] at h
    by_cases hz : b.length = 0 ∨ (b.length = 1 ∧ b.head? = some 0)
    · rw [if_pos hz] at h
      simp only [Except.ok.injEq] at h
      subst h
      exact ha
    · rw [if_neg hz] at h
      simp only at h
      by_cases hbor : (sub_loop a b 0).2 = 1
      · rw [if_pos hbor] at h
        exact absurd h (by simp)
      · rw [if_neg hbor] at h
        exact pop_zeros_ok_canonical _ r
          (sub_loop_spec a b 0 ha.2.1 hb.2.1 (Or.inl rfl)).2.1 h

theorem op_add_ok_canonical (a b r : List Nat) (ha : Canonical a) (hb : Canonical b)
    (h : op_add a b = .ok r) : Canonical r := by
  obtain ⟨r0, hok, hcan, _⟩ := op_add_spec a b ha hb
  rw [hok] at h
  simp only [Except.ok.injEq] at h
  subst h
  exact hcan

theorem bind_pair_ok (f : Except Fault (List Nat)) (s : Bool) (res : Bool × List Nat)
    (h : (f >>= fun result => (pure (s, result) : Except Fault (Bool × List Nat))) = .ok res) :
    f = .ok res.2 := by
  cases f with
  | error e => exact absurd h (by simp [bind, Except.bind])
  | ok v =>
    simp only [bind, Except.bind, pure, Except.pure, Except.ok.injEq] at h
    rw [← h]

theorem op_add_tuple_ok_canonical (l r res : Bool × List Nat) (hl : Canonical l.2)
    (hr : Canonical r.2) (h : op_add_tuple l r = .ok res) : Canonical res.2 := by
  obtain ⟨sl, vl⟩ := l
  obtain ⟨sr, vr⟩ := r
  cases sl <;> cases sr <;> simp only [op_add_tuple, Bool.and_self, Bool.not_false,
    Bool.not_true, Bool.and_true, Bool.and_false, Bool.true_and, Bool.false_and,
    Bool.false_eq_true, if_true, if_false] at h
  · exact op_subtract_ok_canonical vr vl _ hr hl (bind_pair_ok _ _ _ h)
  · exact op_subtract_ok_canonical vr vl _ hr hl (bind_pair_ok _ _ _ h)
  · exact op_subtract_ok_canonical vl vr _ hl hr (bind_pair_ok _ _ _ h)
  · exact op_add_ok_canonical vl vr _ hl hr (bind_pair_ok _ _ _ h)

theorem op_subtract_tuple_ok_canonical (l r res : Bool × List Nat) (hl : Canonical l.2)
    (hr : Canonical r.2) (h : op_subtract_tuple l r = .ok res) : Canonical res.2 := by
  obtain ⟨sl, vl⟩ := l
  obtain ⟨sr, vr⟩ := r
  cases hlt : op_less_than vl vr <;> cases sl <;> cases sr <;>
    simp only [op_subtract_tuple, hlt, Bool.and_self, Bool.not_false, Bool.not_true,
      Bool.and_true, Bool.and_false, Bool.true_and, Bool.false_and, Bool.false_eq_true,
      if_true, if_false, bne_self_eq_false, Bool.true_bne, Bool.false_bne, Bool.bne_true,
      Bool.bne_false] at h
  all_goals first
    | exact op_subtract_ok_canonical vl vr _ hl hr (bind_pair_ok _ _ _ h)
    | exact op_subtract_ok_canonical vr vl _ hr hl (bind_pair_ok _ _ _ h)
    | exact op_add_ok_canonical vl vr _ hl hr (bind_pair_ok _ _ _ h)

/-- C30: for every pair of signed operands with canonical magnitudes, whenever `operator+` or
`operator-` returns a value, the digit sequence of that value is canonical. -/
theorem C30_signed_ops_keep_canonical (a b : Large_Numbers) (ha : Canonical a.value)
    (hb : Canonical b.value) :
    (∀ r, operator_plus a b = .ok r → Canonical r.value) ∧
      ∀ r, operator_minus a b = .ok r → Canonical r.value := by
  constructor
  · intro r h
    unfold operator_plus at h
    cases ht : op_add_tuple (a.is_positive, a.value) (b.is_positive, b.value) with
    | error e =>
      rw [ht] at h
      exact absurd h (by simp [bind, Except.bind])
    | ok res =>
      rw [ht] at h
      simp only [bind, Except.bind, pure, Except.pure, Except.ok.injEq] at h
      rw [← h]
      exact op_add_tuple_ok_canonical _ _ res ha hb ht
  · intro r h
    unfold operator_minus at h
    cases ht : op_subtract_tuple (a.is_positive, a.value) (b.is_positive, b.value) with
    | error e =>
      rw [ht] at h
      exact absurd h (by simp [bind, Except.bind])
    | ok res =>
      rw [ht] at h
      simp only [bind, Except.bind, pure, Except.pure, Except.ok.injEq] at h
      rw [← h]
      exact op_subtract_tuple_ok_canonical _ _ res ha hb ht

theorem C30_signed_ops_keep_canonical_witness :
    Canonical (Large_Numbers.mk false [0, 1]).value ∧
      Canonical (Large_Numbers.mk true [5, 2]).value ∧
      ((∀ r, operator_plus (Large_Numbers.mk false [0, 1]) (Large_Numbers.mk true [5, 2]) =
            .ok r → Canonical r.value) ∧
        ∀ r, operator_minus (Large_Numbers.mk false [0, 1]) (Large_Numbers.mk true [5, 2]) =
            .ok r → Canonical r.value) :=
  ⟨by decide, by decide,
    C30_signed_ops_keep_canonical ⟨false, [0, 1]⟩ ⟨true, [5, 2]⟩ (by decide) (by decide)⟩

/-! ## The order computed by `op_less_than` -/

theorem lex_smaller_nil_cons (y : Nat) (ys : List Nat) : lex_smaller [] (y :: ys) :=
  ⟨0, rfl, Or.inl ⟨rfl, by simp⟩⟩

theorem not_lex_smaller_nil (a : List Nat) : ¬ lex_smaller a [] := by
  rintro ⟨i, _, h | ⟨x, y, _, hy, _⟩⟩
  · exact absurd h.2 (by simp)
  · simp at hy

theorem lex_smaller_cons (x y : Nat) (xs ys : List Nat) :
    lex_smaller (x :: xs) (y :: ys) ↔ x < y ∨ (x = y ∧ lex_smaller xs ys) := by
  constructor
  · rintro ⟨i, htake, h⟩
    cases i with
    | zero =>
      rcases h with ⟨hlen, _⟩ | ⟨x', y', hx, hy, hlt⟩
      · simp at hlen
      · simp only [List.getElem?_cons_zero, Option.some.injEq] at hx hy
        subst hx
        subst hy
        exact Or.inl hlt
    | succ j =>
      simp only [List.take_succ_cons, List.cons.injEq] at htake
      obtain ⟨hxy, htl⟩ := htake
      refine Or.inr ⟨hxy, j, htl, ?_⟩
      rcases h with ⟨hlen, hlt⟩ | ⟨x', y', hx, hy, hlt⟩
      · left
        simp only [List.length_cons] at hlen hlt
        omega
      · right
        simp only [List.getElem?_cons_succ] at hx hy
        exact ⟨x', y', hx, hy, hlt⟩
  · rintro (hlt | ⟨hxy, i, htake, h⟩)
    · exact ⟨0, rfl, Or.inr ⟨x, y, by simp, by simp, hlt⟩⟩
    · refine ⟨i + 1, by simp [hxy, htake], ?_⟩
      rcases h with ⟨hlen, hlt⟩ | ⟨x', y', hx, hy, hlt⟩
      · left
        simp only [List.length_cons]
        omega
      · right
        exact ⟨x', y', by simpa using hx, by simpa using hy, hlt⟩

theorem vec_lt_iff_lex_smaller : ∀ (a b : List Nat), vec_lt a b = true ↔ lex_smaller a b
  | [], [] => by
    simp only [vec_lt, Bool.false_eq_true, false_iff]
    exact not_lex_smaller_nil []
  | [], y :: ys => by
    simp only [vec_lt, true_iff]
    exact lex_smaller_nil_cons y ys
  | x :: xs, [] => by
    simp only [vec_lt, Bool.false_eq_true, false_iff]
    exact not_lex_smaller_nil (x :: xs)
  | x :: xs, y :: ys => by
    rw [lex_smaller_cons, vec_lt]
    by_cases h1 : x < y
    · simp [h1]
    · by_cases h2 : y < x
      · rw [if_neg h1, if_pos h2]
        simp only [Bool.false_eq_true, false_iff]
        rintro (h | ⟨h, _⟩) <;> omega
      · rw [if_neg h1, if_neg h2, vec_lt_iff_lex_smaller xs ys]
        have hxy : x = y := by omega
        simp [h1, hxy]

theorem less_scan_of_not_vec_lt : ∀ (a b : List Nat), vec_lt a b = false →
    a.length = b.length → less_scan a b = false
  | [], [], _, _ => rfl
  | [], _ :: _, _, hlen => by simp at hlen
  | _ :: _, [], _, hlen => by simp at hlen
  | x :: xs, y :: ys, hv, hlen => by
    rw [vec_lt] at hv
    by_cases h1 : x < y
    · rw [if_pos h1] at hv
      exact absurd hv (by decide)
    · rw [if_neg h1] at hv
      by_cases h2 : y < x
      · have hne : x ≠ y := by omega
        simp [less_scan, hne, h1]
      · rw [if_neg h2] at hv
        have hxy : x = y := by omega
        have ih := less_scan_of_not_vec_lt xs ys hv (by simpa using hlen)
        simp [less_scan, hxy, ih]

theorem op_less_than_eq (a b : List Nat) :
    op_less_than a b = (vec_lt a b || decide (a.length < b.length)) := by
  unfold op_less_than
  cases hv : vec_lt a b
  · by_cases hlen : a.length = b.length
    · simp [hlen, less_scan_of_not_vec_lt a b hv hlen]
    · simp [hlen]
  · simp

/-- C31: for every pair of digit sequences `a` and `b`, `op_less_than a b` is true if and
only if `a` is lexicographically smaller than `b` when compared from index 0 (a proper prefix
counting as smaller) or `a` has fewer entries than `b`. -/
theorem C31_op_less_than_lexicographic (a b : List Nat) :
    op_less_than a b = true ↔ (lex_smaller a b ∨ a.length < b.length) := by
  rw [op_less_than_eq, Bool.or_eq_true, vec_lt_iff_lex_smaller, decide_eq_true_eq]

end LargeNumbers
